import Mathlib

/-!
Verification of the speed-test measurement engine implemented in
`src/components/test-history.tsx` (the `SpeedTest` component).

Modelling conventions:
* millisecond readings, byte counts and Mbps values are exact rationals;
* JavaScript `Math.round` is modelled by `jsRound` (floor of `x + 1/2`,
  which is how `Math.round` behaves on the non-negative values that occur
  in this component);
* the displayed metric strings `'-'`, `'N/A'`, `'Error'` and numeric
  strings are modelled by the inductive `Disp`, a numeric display carrying
  the exact value handed to `toFixed`;
* `Array.prototype.sort` with comparator `(a, b) => a - b` is modelled by
  an ascending insertion sort (any ascending sort of numbers produces the
  same list).
-/

namespace SpeedTest

/-- `Math.round` as used by `updateOverallProgress` (non-negative inputs). -/
def jsRound (x : ℚ) : ℤ := ⌊x + 1 / 2⌋

/-! ## Latency aggregation (`runPingTest`, lines 235-252) -/

/-- `pingTimes.sort((a, b) => a - b)`: the recorded probe times in ascending order. -/
def sortedOf (times : List ℚ) : List ℚ := List.insertionSort (· ≤ ·) times

/-- `pingTimes[Math.floor(pingTimes.length / 2)]` taken after the in-place sort. -/
def medianOf (times : List ℚ) : ℚ :=
  (sortedOf times).getD ((sortedOf times).length / 2) 0

/-- `Math.min(300, median * 3)`: the outlier trim threshold. -/
def cutoffOf (times : List ℚ) : ℚ := min 300 (medianOf times * 3)

/-- `pingTimes.filter(t => t < Math.min(300, median * 3))` (the filter runs on the
sorted array, as in the source). -/
def cleanedOf (times : List ℚ) : List ℚ :=
  (sortedOf times).filter (fun t => t < cutoffOf times)

/-- Lines 235-252 of `runPingTest`: empty input reports `'N/A'`; otherwise sort,
take the median, keep the values strictly below `min(300, median * 3)`, and
average them; if everything was trimmed report `'N/A'`.  `none` models the
`'N/A'` display. -/
def aggregatePing (times : List ℚ) : Option ℚ :=
  if times.isEmpty then none
  else if (cleanedOf times).isEmpty then none
  else some ((cleanedOf times).sum / ((cleanedOf times).length : ℚ))

/-- The aggregation exactly as claim C2 words it: sort, take the median, discard
every value EXCEEDING `min(300, 3 * median)` — i.e. keep the values `t` with
`t ≤` threshold — and average the remainder. -/
def specAggregate (times : List ℚ) : Option ℚ :=
  if times.isEmpty then none
  else if ((sortedOf times).filter (fun t => t ≤ cutoffOf times)).isEmpty then none
  else some (((sortedOf times).filter (fun t => t ≤ cutoffOf times)).sum /
    (((sortedOf times).filter (fun t => t ≤ cutoffOf times)).length : ℚ))

/-- The amended aggregation: discard every collected value greater than OR EQUAL to
`min(300, 3 * median)`, i.e. retain exactly the collected values strictly below
the threshold, and average those. -/
def specAggregateStrict (times : List ℚ) : Option ℚ :=
  if times.isEmpty then none
  else if (times.filter (fun t => t < cutoffOf times)).isEmpty then none
  else some ((times.filter (fun t => t < cutoffOf times)).sum /
    ((times.filter (fun t => t < cutoffOf times)).length : ℚ))

/-! ## Probe collection (`runPingTest`, lines 194-229)

A probe outcome is `some v` when the probe measured `v` milliseconds and `none`
when it failed or timed out (in which case `latency` stays `null`). -/

/-- The recording step of the probe loop: probe index `i`, remaining outcomes,
accumulated `pingTimes`.  Mirrors

    if (latency !== null && i >= warmUpPings) pingTimes.push(latency);
    else if (i >= warmUpPings) pingTimes.push(1000);
-/
def collectGo (i : ℕ) : List (Option ℚ) → List ℚ → List ℚ
  | [], acc => acc
  | o :: rest, acc =>
      collectGo (i + 1) rest
        (match o with
          | some v => if 10 ≤ i then acc ++ [v] else acc
          | none => if 10 ≤ i then acc ++ [1000] else acc)

/-- The `pingTimes` array produced by the 100-iteration probe loop. -/
def pingTimesOf (outcomes : List (Option ℚ)) : List ℚ := collectGo 0 outcomes []

/-! ## Throughput formula (`runDownloadTest` line 295, `runUploadTest` line 358) -/

/-- `(bytes / (elapsedMs / 1000) / (1024 * 1024)) * 8`: the Mbps conversion shared
by the download and upload stages. -/
def mbpsOf (bytes : ℕ) (elapsedMs : ℚ) : ℚ :=
  ((bytes : ℚ) / (elapsedMs / 1000) / (1024 * 1024)) * 8

/-! ## Upload loop (`runUploadTest`, lines 317-355) -/

/-- Outcome of one upload `fetch`: success, a non-cancellation failure (caught and
logged), or an `AbortError` (re-thrown). -/
inductive UploadOutcome where
  | ok
  | fail
  | abort
deriving DecidableEq

/-- The upload `while (true)` loop.  Each list entry is one iteration: the clock
reading `performance.now() - startTime` observed at the top of the iteration,
and the outcome of that iteration's upload request.  The loop exits normally
once the elapsed time reaches the 10000 ms test duration; a successful request
adds the 1 MiB chunk size to `uploadedBytes`; a failed request leaves the
counter unchanged and the loop continues; an `AbortError` propagates
(`Except.error`). -/
def uploadLoop : List (ℚ × UploadOutcome) → ℕ → Except Unit ℕ
  | [], uploadedBytes => .ok uploadedBytes
  | (elapsed, o) :: rest, uploadedBytes =>
      if 10000 ≤ elapsed then .ok uploadedBytes
      else
        match o with
        | .ok => uploadLoop rest (uploadedBytes + 1048576)
        | .fail => uploadLoop rest uploadedBytes
        | .abort => .error ()

/-! ## Helper lemmas -/

/-- Unfolding of the recording loop: it appends, after the first `10 - i`
remaining probes, one entry per probe — the measured value, or 1000 on failure. -/
lemma collectGo_eq (rest : List (Option ℚ)) :
    ∀ (i : ℕ) (acc : List ℚ),
      collectGo i rest acc =
        acc ++ (rest.drop (10 - i)).map (fun o => o.getD 1000) := by
  induction rest with
  | nil => intro i acc; simp [collectGo]
  | cons o rest ih =>
      intro i acc
      by_cases hi : 10 ≤ i
      · have h0 : 10 - i = 0 := by omega
        have h1 : 10 - (i + 1) = 0 := by omega
        cases o with
        | none =>
            simp only [collectGo, hi, if_pos, ih, h0, h1, List.drop_zero]
            simp [Option.getD]
        | some v =>
            simp only [collectGo, hi, if_pos, ih, h0, h1, List.drop_zero]
            simp [Option.getD]
      · have h1 : 10 - i = (10 - (i + 1)) + 1 := by omega
        cases o with
        | none =>
            simp only [collectGo, hi, if_neg, ih, h1, List.drop_succ_cons]
            simp
        | some v =>
            simp only [collectGo, hi, if_neg, ih, h1, List.drop_succ_cons]
            simp

lemma pingTimesOf_eq (outcomes : List (Option ℚ)) :
    pingTimesOf outcomes = (outcomes.drop 10).map (fun o => o.getD 1000) := by
  simpa [pingTimesOf] using collectGo_eq outcomes 0 []

/-! ## Claims -/

/-- Claim C7: of the 100 sequential probes, the first 10 (warm-up) contribute
nothing to `pingTimes`, and every later probe contributes its measured value, or
the fixed 1000 ms penalty when it failed or timed out — failed probes are never
dropped.  Hence exactly 90 values are collected. -/
theorem warmup_and_penalty (outcomes : List (Option ℚ))
    (hlen : outcomes.length = 100) :
    pingTimesOf outcomes = (outcomes.drop 10).map (fun o => o.getD 1000)
      ∧ (pingTimesOf outcomes).length = 90 := by
  refine ⟨pingTimesOf_eq outcomes, ?_⟩
  rw [pingTimesOf_eq outcomes]
  simp [hlen]

/-- Witness for C7: one hundred failed probes collect ninety 1000 ms penalties. -/
theorem warmup_and_penalty_witness :
    pingTimesOf (List.replicate 100 (none : Option ℚ)) =
        ((List.replicate 100 (none : Option ℚ)).drop 10).map (fun o => o.getD 1000)
      ∧ (pingTimesOf (List.replicate 100 (none : Option ℚ))).length = 90 :=
  warmup_and_penalty (List.replicate 100 none) (by simp)

/-- Claim C5: the final download rate is bytes per elapsed second, divided by
1048576 (binary MiB) and multiplied by 8; a transfer of 125000000 bytes in
10000 ms therefore computes `(125000000 * 8) / (1048576 * 10)`, which lies
strictly between 95.36 and 95.38 (≈ 95.37). -/
theorem download_mbps_formula (b : ℕ) (t : ℚ) (ht : 0 < t) :
    mbpsOf b t = ((b : ℚ) * 8) / (1048576 * (t / 1000))
      ∧ mbpsOf 125000000 10000 = (125000000 * 8) / (1048576 * 10)
      ∧ (9536 : ℚ) / 100 < mbpsOf 125000000 10000
      ∧ mbpsOf 125000000 10000 < (9538 : ℚ) / 100 := by
  have ht' : t ≠ 0 := ne_of_gt ht
  refine ⟨?_, by norm_num [mbpsOf], by norm_num [mbpsOf], by norm_num [mbpsOf]⟩
  unfold mbpsOf
  field_simp
  ring

/-- Witness for C5 at the elapsed time 10000 ms. -/
theorem download_mbps_formula_witness :
    mbpsOf 125000000 10000 = (125000000 * 8) / (1048576 * 10) :=
  (download_mbps_formula 125000000 10000 (by norm_num)).2.1

/-- Claim C9: the Mbps computation is monotone non-decreasing in the byte count
for a fixed positive elapsed time, and monotone non-increasing in the elapsed
time for a fixed byte count. -/
theorem mbps_monotone (b b1 b2 : ℕ) (t t1 t2 : ℚ)
    (hb : b1 ≤ b2) (ht : 0 < t) (ht1 : 0 < t1) (ht12 : t1 ≤ t2) :
    mbpsOf b1 t ≤ mbpsOf b2 t ∧ mbpsOf b t2 ≤ mbpsOf b t1 := by
  have ht2 : 0 < t2 := lt_of_lt_of_le ht1 ht12
  constructor
  · unfold mbpsOf
    have hbq : (b1 : ℚ) ≤ (b2 : ℚ) := by exact_mod_cast hb
    gcongr
  · unfold mbpsOf
    gcongr

/-- Witness for C9: 1 ≤ 2 bytes at 1000 ms, and 1000 ms ≤ 2000 ms at 5 bytes. -/
theorem mbps_monotone_witness :
    mbpsOf 1 1000 ≤ mbpsOf 2 1000 ∧ mbpsOf 5 2000 ≤ mbpsOf 5 1000 :=
  mbps_monotone 5 1 2 1000 1000 2000 (by norm_num) (by norm_num) (by norm_num)
    (by norm_num)

/-- A finite list of rationals, each strictly below `c`, sums to less than
`c` times its length. -/
lemma sum_lt_of_forall_lt (c : ℚ) :
    ∀ l : List ℚ, l ≠ [] → (∀ x ∈ l, x < c) → l.sum < c * (l.length : ℚ)
  | [], hne, _ => absurd rfl hne
  | x :: l, _, h => by
      rcases eq_or_ne l [] with rfl | hne
      · simpa using h x (by simp)
      · have hx : x < c := h x (by simp)
        have hrec : l.sum < c * (l.length : ℚ) :=
          sum_lt_of_forall_lt c l hne (fun y hy => h y (by simp [hy]))
        rw [List.sum_cons, List.length_cons]
        push_cast
        nlinarith

/-- Claim C6: when every collected value strictly exceeds the trim threshold
`min(300, 3 * median)` every value is filtered out, and likewise when nothing
was collected at all; in both cases the latency is reported as the unavailable
sentinel `'N/A'` (`none`) — never as zero or a negative number. -/
theorem all_trimmed_unavailable (times : List ℚ)
    (h : ∀ t ∈ times, cutoffOf times < t) :
    aggregatePing times = none ∧ aggregatePing ([] : List ℚ) = none := by
  refine ⟨?_, by simp [aggregatePing]⟩
  have hempty : cleanedOf times = [] := by
    unfold cleanedOf
    rw [List.filter_eq_nil_iff]
    intro t htmem
    have ht : t ∈ times :=
      (List.perm_insertionSort (· ≤ ·) times).mem_iff.mp htmem
    simpa using not_lt_of_lt (h t ht)
  unfold aggregatePing
  rcases eq_or_ne times [] with rfl | hne
  · simp
  · simp [hempty]

/-- Witness for C6 at the collected values `[400, 500]` (median 500, threshold
`min(300, 1500) = 300`, both values above it). -/
theorem all_trimmed_unavailable_witness :
    aggregatePing [400, 500] = none ∧ aggregatePing ([] : List ℚ) = none := by
  refine all_trimmed_unavailable [400, 500] ?_
  intro t ht
  have hcut : cutoffOf [400, 500] = 300 := by
    norm_num [cutoffOf, medianOf, sortedOf, List.insertionSort, List.orderedInsert,
      List.getD]
  rw [hcut]
  simp only [List.mem_cons, List.not_mem_nil, or_false, List.mem_singleton] at ht
  rcases ht with rfl | rfl
  · norm_num
  · norm_num

/-- Claim C10: whenever a numeric latency is reported, every retained value is
strictly below the trim threshold `min(300, 3 * median)`, and therefore the
reported average is itself strictly below 300 ms. -/
theorem numeric_latency_below_300 (times : List ℚ) (v : ℚ)
    (h : aggregatePing times = some v) :
    (∀ t ∈ cleanedOf times, t < cutoffOf times) ∧ v < 300 := by
  have hmem : ∀ t ∈ cleanedOf times, t < cutoffOf times := by
    intro t ht
    have := List.of_mem_filter ht
    simpa using this
  refine ⟨hmem, ?_⟩
  unfold aggregatePing at h
  split at h
  · exact absurd h (by simp)
  · split at h
    · exact absurd h (by simp)
    · rename_i hcl
      have hv : v = (cleanedOf times).sum / ((cleanedOf times).length : ℚ) :=
        (Option.some.inj h).symm
      have hne : cleanedOf times ≠ [] := by
        simpa [List.isEmpty_iff] using hcl
      have hlenpos : (0 : ℚ) < ((cleanedOf times).length : ℚ) := by
        have := List.length_pos.mpr hne
        exact_mod_cast this
      have hlt : ∀ t ∈ cleanedOf times, t < 300 := fun t ht =>
        lt_of_lt_of_le (hmem t ht) (min_le_left _ _)
      have hsum : (cleanedOf times).sum < 300 * ((cleanedOf times).length : ℚ) :=
        sum_lt_of_forall_lt 300 (cleanedOf times) hne hlt
      rw [hv, div_lt_iff₀ hlenpos]
      linarith

/-- Witness for C10 at the single collected value 50, which aggregates to 50. -/
theorem numeric_latency_below_300_witness :
    (∀ t ∈ cleanedOf [50], t < cutoffOf [50]) ∧ (50 : ℚ) < 300 := by
  refine numeric_latency_below_300 [50] 50 ?_
  norm_num [aggregatePing, cleanedOf, cutoffOf, medianOf, sortedOf,
    List.insertionSort, List.orderedInsert, List.getD]

/-- Claim C2 as stated fails at the collected values `[100, 300]`: the median is
300 and the threshold is `min(300, 900) = 300`; the claim's rule (discard only
values exceeding 300) keeps both values and averages them to 200, but the code
keeps only values strictly below 300 and reports 100. -/
theorem ping_trim_boundary_cex :
    specAggregate [100, 300] = some 200 ∧ aggregatePing [100, 300] = some 100 := by
  constructor
  · norm_num [specAggregate, cutoffOf, medianOf, sortedOf, List.insertionSort,
      List.orderedInsert, List.getD]
  · norm_num [aggregatePing, cleanedOf, cutoffOf, medianOf, sortedOf,
      List.insertionSort, List.orderedInsert, List.getD]

/-- Claim C2 (amended): the aggregation sorts the collected values ascending,
takes the median, discards every value greater than OR EQUAL TO
`min(300, 3 * median)` — retaining exactly the collected values strictly below
the threshold — and averages the remainder; for 100 probes whose first 10 are
warm-up and whose remaining 90 all measure exactly 50 ms the threshold is
`min(300, 150) = 150`, nothing is trimmed, and the reported latency is
exactly 50. -/
theorem ping_aggregation_amended (times : List ℚ) (pre : List (Option ℚ))
    (hpre : pre.length = 10) :
    aggregatePing times = specAggregateStrict times
      ∧ aggregatePing (pingTimesOf (pre ++ List.replicate 90 (some 50))) = some 50 := by
  constructor
  · have hperm : List.Perm (cleanedOf times)
        (times.filter (fun t => decide (t < cutoffOf times))) :=
      (List.perm_insertionSort (· ≤ ·) times).filter _
    have hsum := hperm.sum_eq
    have hlen := hperm.length_eq
    unfold aggregatePing specAggregateStrict
    rcases eq_or_ne times [] with rfl | hne
    · simp
    · have h0 : times.isEmpty = false := by simpa [List.isEmpty_iff] using hne
      rcases eq_or_ne (cleanedOf times) [] with hcl | hcl
      · have : times.filter (fun t => decide (t < cutoffOf times)) = [] := by
          have := hlen
          rw [hcl] at this
          exact (List.length_eq_zero.mp this.symm)
        simp [h0, hcl, this]
      · have hcl2 : times.filter (fun t => decide (t < cutoffOf times)) ≠ [] := by
          intro hcon
          rw [hcon] at hlen
          exact hcl (List.length_eq_zero.mp hlen)
        have e1 : (cleanedOf times).isEmpty = false := by
          simpa [List.isEmpty_iff] using hcl
        have e2 : (times.filter (fun t => decide (t < cutoffOf times))).isEmpty = false := by
          simpa [List.isEmpty_iff] using hcl2
        simp only [h0, e1, e2, Bool.false_eq_true, if_false, cleanedOf] at *
        rw [hsum, hlen]
  · have hdrop : pingTimesOf (pre ++ List.replicate 90 (some 50)) =
        List.replicate 90 (50 : ℚ) := by
      rw [pingTimesOf_eq, List.drop_left' hpre]
      simp
    rw [hdrop]
    have hsorted : sortedOf (List.replicate 90 (50 : ℚ)) = List.replicate 90 50 :=
      List.Sorted.insertionSort_eq (by simp [List.Sorted])
    have hmed : medianOf (List.replicate 90 (50 : ℚ)) = 50 := by
      rw [medianOf, hsorted, List.getD_eq_getElem?_getD, List.length_replicate]
      norm_num [List.getElem?_replicate]
    have hcut : cutoffOf (List.replicate 90 (50 : ℚ)) = 150 := by
      rw [cutoffOf, hmed]; norm_num
    have hclean : cleanedOf (List.replicate 90 (50 : ℚ)) = List.replicate 90 50 := by
      rw [cleanedOf, hsorted, hcut]
      simp only [List.filter_replicate]
      norm_num
    rw [aggregatePing, hclean]
    norm_num [List.sum_replicate]

/-- Witness for C2 (amended) at `times = [100, 300]` and ten discarded warm-up
probes. -/
theorem ping_aggregation_amended_witness :
    aggregatePing [100, 300] = specAggregateStrict [100, 300]
      ∧ aggregatePing
          (pingTimesOf (List.replicate 10 (none : Option ℚ) ++
            List.replicate 90 (some 50))) = some 50 :=
  ping_aggregation_amended [100, 300] (List.replicate 10 none) (by simp)

/-- Helper for C8: when no iteration is cancelled, the loop runs through exactly
the iterations whose clock reading is below the 10000 ms test duration, and the
final byte counter adds one 1 MiB chunk per successful request in that window. -/
lemma uploadLoop_no_abort :
    ∀ (events : List (ℚ × UploadOutcome)) (acc : ℕ),
      (∀ p ∈ events, p.2 ≠ UploadOutcome.abort) →
      uploadLoop events acc =
        Except.ok (acc + 1048576 *
          ((events.takeWhile (fun p => decide (p.1 < 10000))).countP
            (fun p => decide (p.2 = UploadOutcome.ok))))
  | [], acc, _ => by simp [uploadLoop]
  | (e, o) :: rest, acc, hna => by
      by_cases he : 10000 ≤ e
      · have hnlt : ¬(e < 10000) := not_lt.mpr he
        have h1 : uploadLoop ((e, o) :: rest) acc = Except.ok acc := by
          simp [uploadLoop, he]
        rw [h1, List.takeWhile_cons]
        simp [hnlt]
      · have hlt : e < 10000 := not_le.mp he
        cases o with
        | ok =>
            have htw : ((e, UploadOutcome.ok) :: rest).takeWhile
                  (fun p => decide (p.1 < 10000)) =
                (e, UploadOutcome.ok) ::
                  rest.takeWhile (fun p => decide (p.1 < 10000)) := by
              simp [List.takeWhile_cons, hlt]
            have hstep : uploadLoop ((e, UploadOutcome.ok) :: rest) acc =
                uploadLoop rest (acc + 1048576) := by
              simp [uploadLoop, he]
            rw [hstep, uploadLoop_no_abort rest (acc + 1048576)
              (fun p hp => hna p (by simp [hp])), htw]
            congr 1
            rw [List.countP_cons]
            simp only [decide_eq_true_eq]
            norm_num
            omega
        | fail =>
            have htw : ((e, UploadOutcome.fail) :: rest).takeWhile
                  (fun p => decide (p.1 < 10000)) =
                (e, UploadOutcome.fail) ::
                  rest.takeWhile (fun p => decide (p.1 < 10000)) := by
              simp [List.takeWhile_cons, hlt]
            have hstep : uploadLoop ((e, UploadOutcome.fail) :: rest) acc =
                uploadLoop rest acc := by
              simp [uploadLoop, he]
            rw [hstep, uploadLoop_no_abort rest acc
              (fun p hp => hna p (by simp [hp])), htw]
            congr 2
        | abort =>
            exact absurd rfl (hna (e, UploadOutcome.abort) (by simp))

/-- Claim C8: in the upload stage a single request's non-cancellation failure
leaves the loop running (it never aborts the stage), a cancellation signal
aborts the loop immediately, the loop otherwise runs until the 10000 ms test
duration elapses, and the final byte counter counts exactly the requests that
succeeded (1 MiB each). -/
theorem upload_failure_tolerant (e : ℚ) (rest : List (ℚ × UploadOutcome))
    (acc : ℕ) (events : List (ℚ × UploadOutcome))
    (he : e < 10000) (hna : ∀ p ∈ events, p.2 ≠ UploadOutcome.abort) :
    uploadLoop ((e, UploadOutcome.fail) :: rest) acc = uploadLoop rest acc
      ∧ uploadLoop ((e, UploadOutcome.abort) :: rest) acc = Except.error ()
      ∧ uploadLoop events acc =
          Except.ok (acc + 1048576 *
            ((events.takeWhile (fun p => decide (p.1 < 10000))).countP
              (fun p => decide (p.2 = UploadOutcome.ok)))) := by
  have hne : ¬(10000 ≤ e) := not_le.mpr he
  exact ⟨by simp [uploadLoop, hne], by simp [uploadLoop, hne],
    uploadLoop_no_abort events acc hna⟩

/-- Witness for C8: a failed request at 0 ms is skipped, an abort at 0 ms stops
the loop, and of three requests (success at 0 ms, failure at 1 ms, success at
the 10000 ms cutoff) exactly one chunk is counted. -/
theorem upload_failure_tolerant_witness :
    uploadLoop [((0 : ℚ), UploadOutcome.fail)] 0 = uploadLoop [] 0
      ∧ uploadLoop [((0 : ℚ), UploadOutcome.abort)] 0 = Except.error ()
      ∧ uploadLoop [((0 : ℚ), UploadOutcome.ok), (1, UploadOutcome.fail),
            (10000, UploadOutcome.ok)] 0 =
          Except.ok (0 + 1048576 *
            (([((0 : ℚ), UploadOutcome.ok), (1, UploadOutcome.fail),
                (10000, UploadOutcome.ok)].takeWhile
              (fun p => decide (p.1 < 10000))).countP
              (fun p => decide (p.2 = UploadOutcome.ok)))) := by
  refine upload_failure_tolerant 0 [] 0 _ (by norm_num) ?_
  intro p hp
  simp only [List.mem_cons, List.not_mem_nil, or_false] at hp
  rcases hp with rfl | rfl | rfl <;> simp

/-! ## Orchestrator (`startAllTests`, lines 364-434)

`startAllTests` is an `async` closure created in the render that handled the
click.  The React `useState` variables `ping`, `downloadSpeed`, `uploadSpeed`
and `ipAddress` that its `catch`/`finally` blocks read are the constants of
that render: calling `setPing` etc. during the run re-renders the component
with fresh constants but does not change the ones this running closure
captured.  The model therefore threads two states: the captured click-time
snapshot (`closure`), read wherever the source reads a state variable, and the
live state, written wherever the source calls a setter.  `setTestHistory`
uses the functional-updater form, so it reads the up-to-date history. -/

/-- A displayed metric: `'-'`, `'N/A'`, `'Error'`, or a numeric string
(the numeric display carries the exact value handed to `toFixed`). -/
inductive Disp where
  | dash
  | na
  | err
  | num (v : ℚ)
deriving DecidableEq

/-- The displayed client address: `'-'`, `'N/A'`, `'Error'`, or an address. -/
inductive IpDisp where
  | dash
  | na
  | err
  | addr (s : String)
deriving DecidableEq

/-- The `testState` stage value. -/
inductive TState where
  | idle
  | pinging
  | downloading
  | uploading
  | complete
deriving DecidableEq

/-- One entry of the History Log (the `TestResult` interface): absent metric
fields (`null`) are `none`. -/
structure TestResult where
  id : ℕ
  timestamp : String
  ipAddress : String
  ping : Option ℚ
  downloadSpeed : Option ℚ
  uploadSpeed : Option ℚ
deriving DecidableEq

/-- The component state observable by the presentation layer. -/
structure CState where
  testState : TState
  ping : Disp
  downloadSpeed : Disp
  uploadSpeed : Disp
  ipAddress : IpDisp
  currentSpeed : ℚ
  progress : ℤ
  testStatus : String
  isTesting : Bool
  history : List TestResult
deriving DecidableEq

/-- How the upload stage ended: cancelled mid-loop (`live` is the last live
speed displayed by a 200 ms progress update, if any fired), or ran to the
duration cutoff with a final rate.  Upload request failures are absorbed inside
the loop and never end the stage (see `uploadLoop`). -/
inductive UlOutcome where
  | aborted (live : Option ℚ) (prog : ℤ)
  | done (live : Option ℚ) (finalMbps : ℚ) (prog : ℤ)

/-- How the download stage ended: cancelled (`AbortError` re-thrown), failed
with a non-cancellation transport error (re-thrown as
`Error('Download test failed')`), or completed with a final rate and a
continuation into the upload stage. -/
inductive DlOutcome where
  | aborted (live : Option ℚ) (prog : ℤ)
  | failed (live : Option ℚ) (prog : ℤ)
  | done (live : Option ℚ) (finalMbps : ℚ) (prog : ℤ) (next : UlOutcome)

/-- How the ping stage ended: cancelled mid-loop (`AbortError` from
`performSinglePing` — every other probe failure is absorbed as a penalty), or
the loop finished and displayed the aggregated latency (`none` = `'N/A'`),
continuing into the download stage. -/
inductive PingOutcome where
  | aborted (prog : ℤ)
  | done (agg : Option ℚ) (prog : ℤ) (next : DlOutcome)

/-- How the whole `try` block ends: normally, with a caught `AbortError`, or
with a caught non-cancellation error. -/
inductive ExitKind where
  | success
  | abortCaught
  | errCaught
deriving DecidableEq

/-- A mid-stage live speed display (`setDownloadSpeed`/`setUploadSpeed` plus
`setCurrentSpeedDisplay` from a 200 ms progress tick), if one fired. -/
def applyDlLive (st : CState) (live : Option ℚ) (prog : ℤ) : CState :=
  match live with
  | some v => { st with downloadSpeed := .num v, currentSpeed := v, progress := prog }
  | none => { st with progress := prog }

/-- Same for the upload stage. -/
def applyUlLive (st : CState) (live : Option ℚ) (prog : ℤ) : CState :=
  match live with
  | some v => { st with uploadSpeed := .num v, currentSpeed := v, progress := prog }
  | none => { st with progress := prog }

/-- The `try` block of `startAllTests` (lines 379-396): resolve the client
address, then run the three stages in sequence over the live state; returns the
live state at the end of the block together with how the block exited. -/
def runTry (st : CState) (ip : Option String) (po : PingOutcome) : CState × ExitKind :=
  let st := { st with testStatus := "Fetching IP Address...",
                      ipAddress := match ip with | some s => .addr s | none => .na }
  let st := { st with testStatus := "Starting Ping Test..." }
  match po with
  | .aborted prog => ({ st with progress := prog }, .abortCaught)
  | .done agg pprog next =>
    let st := { st with ping := match agg with | some v => .num v | none => .na,
                        progress := pprog }
    let st := { st with testStatus := "Starting Download Test...",
                        testState := .downloading }
    match next with
    | .aborted live prog => (applyDlLive st live prog, .abortCaught)
    | .failed live prog => (applyDlLive st live prog, .errCaught)
    | .done live fin dprog unext =>
      let st := { applyDlLive st live dprog with downloadSpeed := .num fin }
      let st := { st with testStatus := "Starting Upload Test...",
                          testState := .uploading }
      match unext with
      | .aborted live2 prog2 => (applyUlLive st live2 prog2, .abortCaught)
      | .done live2 fin2 uprog =>
        let st := { applyUlLive st live2 uprog with uploadSpeed := .num fin2 }
        ({ st with testStatus := "Test Complete!", testState := .complete }, .success)

/-- The new `TestResult` built in the `finally` block (lines 420-428).  Every
field is computed from the CLICK-TIME closure values of `ping`,
`downloadSpeed`, `uploadSpeed` and `ipAddress` — the run's own `set...` calls
never reach these constants. -/
def mkRecord (closure : CState) (idv : ℕ) (ts : String) : TestResult :=
  { id := idv
    timestamp := ts
    ipAddress := match closure.ipAddress with
      | .dash => "N/A"
      | .na => "N/A"
      | .err => "Error"
      | .addr s => s
    ping := match closure.ping with | .num v => some v | _ => none
    downloadSpeed := match closure.downloadSpeed with | .num v => some v | _ => none
    uploadSpeed := match closure.uploadSpeed with | .num v => some v | _ => none }

/-- The `catch` (lines 397-411) and `finally` (lines 412-433) blocks.  The
`catch` branches test the CLICK-TIME closure values against `'-'` when deciding
which displays to overwrite; the `finally` block always sets `isTesting` to
false, the progress to 100, the live speed to 0, and prepends exactly one
record (the functional updater reads the live history). -/
def finalizeRun (closure : CState) (live : CState) (exit : ExitKind)
    (idv : ℕ) (ts : String) : CState :=
  let live := match exit with
    | .success => live
    | .abortCaught =>
      let live := { live with testStatus := "Test Aborted" }
      let live := if closure.ping = Disp.dash then { live with ping := Disp.na } else live
      let live := if closure.downloadSpeed = Disp.dash then
        { live with downloadSpeed := Disp.na } else live
      let live := if closure.uploadSpeed = Disp.dash then
        { live with uploadSpeed := Disp.na } else live
      if closure.ipAddress = IpDisp.dash then { live with ipAddress := IpDisp.na } else live
    | .errCaught =>
      let live := { live with testStatus := "Error: Download test failed" }
      let live := if closure.ping = Disp.dash then { live with ping := Disp.err } else live
      let live := if closure.downloadSpeed = Disp.dash then
        { live with downloadSpeed := Disp.err } else live
      let live := if closure.uploadSpeed = Disp.dash then
        { live with uploadSpeed := Disp.err } else live
      if closure.ipAddress = IpDisp.dash then { live with ipAddress := IpDisp.err } else live
  { live with isTesting := false
              progress := 100
              currentSpeed := 0
              history := mkRecord closure idv ts :: live.history }

/-- `startAllTests` (lines 364-434): `st0` is the state at the click (also the
snapshot captured by the closure), `ip` the address lookup result, `po` what
happened during the staged run, `idv`/`ts` the `Date.now()` id and timestamp. -/
def startAllTests (st0 : CState) (ip : Option String) (po : PingOutcome)
    (idv : ℕ) (ts : String) : CState :=
  let live := { st0 with ping := .dash, downloadSpeed := .dash, uploadSpeed := .dash,
                         ipAddress := .dash, progress := 0,
                         testStatus := "Starting...", testState := .pinging,
                         isTesting := true }
  let r := runTry live ip po
  finalizeRun st0 r.1 r.2 idv ts

/-- The all-dashes state of a freshly mounted component. -/
def freshState : CState :=
  { testState := .idle, ping := .dash, downloadSpeed := .dash, uploadSpeed := .dash,
    ipAddress := .dash, currentSpeed := 0, progress := 0, testStatus := "Ready",
    isTesting := false, history := [] }

/-- The staged run never touches the history: only finalization does. -/
lemma runTry_history (st : CState) (ip : Option String) (po : PingOutcome) :
    (runTry st ip po).1.history = st.history := by
  cases po with
  | aborted prog => rfl
  | done agg pprog next =>
    cases next with
    | aborted live prog => cases live <;> rfl
    | failed live prog => cases live <;> rfl
    | done live fin dprog unext =>
      cases unext with
      | aborted live2 prog2 => cases live <;> cases live2 <;> rfl
      | done live2 fin2 uprog => cases live <;> cases live2 <;> rfl

/-- Finalization prepends exactly one record, whatever the exit kind. -/
lemma finalizeRun_history (c l : CState) (e : ExitKind) (idv : ℕ) (ts : String) :
    (finalizeRun c l e idv ts).history = mkRecord c idv ts :: l.history := by
  cases e with
  | success => rfl
  | abortCaught =>
      unfold finalizeRun
      split_ifs <;> rfl
  | errCaught =>
      unfold finalizeRun
      split_ifs <;> rfl

/-- Claim C1: every invocation of `startAllTests` — whether the run completes,
fails with a non-cancellation error, or is cancelled — reaches the single
`finally` block, which appends exactly one Result Record: the History Log
afterwards is the new record prepended to the log before, so its length grows
by exactly one and the new record is most-recent-first. -/
theorem one_record_per_run (st0 : CState) (ip : Option String) (po : PingOutcome)
    (idv : ℕ) (ts : String) :
    (startAllTests st0 ip po idv ts).history = mkRecord st0 idv ts :: st0.history
      ∧ (startAllTests st0 ip po idv ts).history.length = st0.history.length + 1
      ∧ (startAllTests st0 ip po idv ts).history.head? =
          some (mkRecord st0 idv ts) := by
  have hmain : (startAllTests st0 ip po idv ts).history =
      mkRecord st0 idv ts :: st0.history := by
    unfold startAllTests
    rw [finalizeRun_history, runTry_history]
  exact ⟨hmain, by rw [hmain]; simp, by rw [hmain]; simp⟩

/-- Claim C3 fails on the code, and the failure is a slip rather than intent
(the source comments at lines 418-419 and 430 say the record should "capture
any successful measurements even if others failed").  On a first run from the
fresh all-dashes state, the address lookup succeeds, the latency stage
completes with the numeric value 50 and displays it, and the run is cancelled
during the download stage.  The claim (and the code's comments) call for a
record with `latencyMs = 50` and the download/upload fields absent; but the
`catch`/`finally` blocks read the click-render closure constants (all still
`'-'`), so the emitted record has `ping = none` (and `ipAddress = "N/A"`
despite the successful lookup), and the abort handler even overwrites the
already-displayed latency with `'N/A'`. -/
theorem cancel_mid_download_record :
    (startAllTests freshState (some "203.0.113.7")
        (PingOutcome.done (some 50) 10 (DlOutcome.aborted (some 80) 35))
        1 "t").history.head?
      = some { id := 1, timestamp := "t", ipAddress := "N/A", ping := none,
               downloadSpeed := none, uploadSpeed := none }
      ∧ (startAllTests freshState (some "203.0.113.7")
          (PingOutcome.done (some 50) 10 (DlOutcome.aborted (some 80) 35))
          1 "t").ping = Disp.na := by
  constructor <;> rfl

/-! ## Overall progress (`updateOverallProgress`, lines 117-121, and the
per-stage progress updates) -/

/-- `updateOverallProgress(stageStart, stageEnd, stageProgress)`:
`Math.round(stageStart + (stageEnd - stageStart) * (stageProgress / 100))`. -/
def overallUpd (s e p : ℚ) : ℤ := jsRound (s + (e - s) * (p / 100))

/-- The update fired after ping probe `i` (line 227): window `[0, 10]`, stage
progress `((i + 1) / numPings) * 100` with `numPings = 100`. -/
def pingUpd (i : ℕ) : ℤ := overallUpd 0 10 (((i + 1 : ℚ) / 100) * 100)

/-- A download live update at elapsed time `el` (line 284): window `[10, 60]`,
stage progress `Math.min(100, (elapsed / testDuration) * 100)`. -/
def dlUpd (el : ℚ) : ℤ := overallUpd 10 60 (min 100 ((el / 10000) * 100))

/-- An upload live update at elapsed time `el` (line 347): window `[60, 100]`. -/
def ulUpd (el : ℚ) : ℤ := overallUpd 60 100 (min 100 ((el / 10000) * 100))

/-- The shape of one run's progress updates: how many ping probes completed
(each fires `pingUpd`), the elapsed times of the download live updates and
whether the download stage reached its final `updateOverallProgress(10,60,100)`
(line 297), the same for upload (line 360). -/
structure ProgTrace where
  pingProbes : ℕ
  dlLive : List ℚ
  dlFinished : Bool
  ulLive : List ℚ
  ulFinished : Bool

/-- The sequence of values `setProgress` receives over one invocation of
`startAllTests`: the reset to 0 (line 369), the stage updates in order, and the
unconditional `setProgress(100)` of the `finally` block (line 415). -/
def progressSeq (t : ProgTrace) : List ℤ :=
  [0] ++ (List.range t.pingProbes).map pingUpd
      ++ t.dlLive.map dlUpd
      ++ (if t.dlFinished then [overallUpd 10 60 100] else [])
      ++ t.ulLive.map ulUpd
      ++ (if t.ulFinished then [overallUpd 60 100 100] else [])
      ++ [100]

/-- Well-formedness of a run trace: the probe loop runs at most 100 iterations,
and each stage's live updates carry non-negative, non-decreasing elapsed times
(`performance.now()` differences against a fixed stage start). -/
def ProgTrace.wf (t : ProgTrace) : Prop :=
  t.pingProbes ≤ 100
    ∧ t.dlLive.Pairwise (· ≤ ·) ∧ (∀ e ∈ t.dlLive, (0 : ℚ) ≤ e)
    ∧ t.ulLive.Pairwise (· ≤ ·) ∧ (∀ e ∈ t.ulLive, (0 : ℚ) ≤ e)

lemma jsRound_mono {x y : ℚ} (h : x ≤ y) : jsRound x ≤ jsRound y :=
  Int.floor_mono (by linarith)

lemma jsRound_zero : jsRound 0 = 0 := by norm_num [jsRound]

lemma jsRound_ten : jsRound 10 = 10 := by
  rw [jsRound, Int.floor_eq_iff]
  norm_num

lemma jsRound_sixty : jsRound 60 = 60 := by
  rw [jsRound, Int.floor_eq_iff]
  norm_num

lemma jsRound_hundred : jsRound 100 = 100 := by
  rw [jsRound, Int.floor_eq_iff]
  norm_num

lemma pingUpd_bounds {i : ℕ} (hi : i < 100) : 0 ≤ pingUpd i ∧ pingUpd i ≤ 10 := by
  constructor
  · rw [show (0 : ℤ) = jsRound 0 from jsRound_zero.symm]
    apply jsRound_mono
    positivity
  · rw [show (10 : ℤ) = jsRound 10 from jsRound_ten.symm]
    apply jsRound_mono
    have h1 : ((i : ℚ) + 1) ≤ 100 := by
      have : (i : ℚ) ≤ 99 := by exact_mod_cast Nat.lt_succ_iff.mp hi
      linarith
    nlinarith

lemma pingUpd_mono {i j : ℕ} (h : i ≤ j) : pingUpd i ≤ pingUpd j := by
  apply jsRound_mono
  have : (i : ℚ) ≤ (j : ℚ) := by exact_mod_cast h
  nlinarith

lemma dlUpd_bounds {e : ℚ} (he : 0 ≤ e) : 10 ≤ dlUpd e ∧ dlUpd e ≤ 60 := by
  constructor
  · rw [show (10 : ℤ) = jsRound 10 from jsRound_ten.symm]
    apply jsRound_mono
    have : (0 : ℚ) ≤ min 100 (e / 10000 * 100) := le_min (by norm_num) (by positivity)
    nlinarith
  · rw [show (60 : ℤ) = jsRound 60 from jsRound_sixty.symm]
    apply jsRound_mono
    have : min 100 (e / 10000 * 100) ≤ 100 := min_le_left _ _
    nlinarith

lemma dlUpd_mono {e1 e2 : ℚ} (h : e1 ≤ e2) : dlUpd e1 ≤ dlUpd e2 := by
  apply jsRound_mono
  have : min 100 (e1 / 10000 * 100) ≤ min 100 (e2 / 10000 * 100) :=
    min_le_min le_rfl (by linarith)
  nlinarith

lemma ulUpd_bounds {e : ℚ} (he : 0 ≤ e) : 60 ≤ ulUpd e ∧ ulUpd e ≤ 100 := by
  constructor
  · rw [show (60 : ℤ) = jsRound 60 from jsRound_sixty.symm]
    apply jsRound_mono
    have : (0 : ℚ) ≤ min 100 (e / 10000 * 100) := le_min (by norm_num) (by positivity)
    nlinarith
  · rw [show (100 : ℤ) = jsRound 100 from jsRound_hundred.symm]
    apply jsRound_mono
    have : min 100 (e / 10000 * 100) ≤ 100 := min_le_left _ _
    nlinarith

lemma ulUpd_mono {e1 e2 : ℚ} (h : e1 ≤ e2) : ulUpd e1 ≤ ulUpd e2 := by
  apply jsRound_mono
  have : min 100 (e1 / 10000 * 100) ≤ min 100 (e2 / 10000 * 100) :=
    min_le_min le_rfl (by linarith)
  nlinarith

lemma overallUpd_dl_final : overallUpd 10 60 100 = 60 := by
  rw [overallUpd]
  norm_num
  exact jsRound_sixty

lemma overallUpd_ul_final : overallUpd 60 100 100 = 100 := by
  rw [overallUpd]
  norm_num
  exact jsRound_hundred

/-- Gluing monotone chains: if everything in `A` is at most `m` and everything
in `B` is at least `m`, the concatenation is still a monotone chain. -/
lemma chainLE_append (A B : List ℤ) (m : ℤ) (hA : List.Chain' (· ≤ ·) A)
    (hB : List.Chain' (· ≤ ·) B) (hAm : ∀ x ∈ A, x ≤ m) (hmB : ∀ y ∈ B, m ≤ y) :
    List.Chain' (· ≤ ·) (A ++ B) := by
  rw [List.chain'_append]
  refine ⟨hA, hB, ?_⟩
  intro x hx y hy
  obtain ⟨hne, rfl⟩ := List.mem_getLast?_eq_getLast hx
  exact le_trans (hAm _ (List.getLast_mem hne)) (hmB _ (List.mem_of_mem_head? hy))

/-- Claim C4: over the lifetime of a single run the overall progress value
never decreases from one `setProgress` call to the next, and at finalization —
completed, errored, or cancelled — it is set to exactly 100 (both the last
entry of the update sequence and the unconditional write of the `finally`
block). -/
theorem progress_monotone_and_final (t : ProgTrace) (st0 : CState)
    (ip : Option String) (po : PingOutcome) (idv : ℕ) (ts : String)
    (h : t.wf) :
    List.Chain' (· ≤ ·) (progressSeq t)
      ∧ (progressSeq t).getLast? = some 100
      ∧ (startAllTests st0 ip po idv ts).progress = 100 := by
  obtain ⟨hn, hdp, hd0, hup, hu0⟩ := h
  have chP : List.Chain' (· ≤ ·) ((List.range t.pingProbes).map pingUpd) :=
    ((List.pairwise_lt_range t.pingProbes).map pingUpd
      (fun a b hab => pingUpd_mono (le_of_lt hab))).chain'
  have chD : List.Chain' (· ≤ ·) (t.dlLive.map dlUpd) :=
    (hdp.map dlUpd (fun a b hab => dlUpd_mono hab)).chain'
  have chU : List.Chain' (· ≤ ·) (t.ulLive.map ulUpd) :=
    (hup.map ulUpd (fun a b hab => ulUpd_mono hab)).chain'
  have mP : ∀ x ∈ (List.range t.pingProbes).map pingUpd, 0 ≤ x ∧ x ≤ 10 := by
    intro x hx
    obtain ⟨i, hi, rfl⟩ := List.mem_map.mp hx
    exact pingUpd_bounds (lt_of_lt_of_le (List.mem_range.mp hi) hn)
  have mD : ∀ x ∈ t.dlLive.map dlUpd, 10 ≤ x ∧ x ≤ 60 := by
    intro x hx
    obtain ⟨e, he, rfl⟩ := List.mem_map.mp hx
    exact dlUpd_bounds (hd0 e he)
  have mU : ∀ x ∈ t.ulLive.map ulUpd, 60 ≤ x ∧ x ≤ 100 := by
    intro x hx
    obtain ⟨e, he, rfl⟩ := List.mem_map.mp hx
    exact ulUpd_bounds (hu0 e he)
  have mDF : ∀ x ∈ (if t.dlFinished then [overallUpd 10 60 100] else []), x = 60 := by
    intro x hx
    split at hx
    · rw [List.mem_singleton.mp hx, overallUpd_dl_final]
    · simp at hx
  have mUF : ∀ x ∈ (if t.ulFinished then [overallUpd 60 100 100] else []),
      x = 100 := by
    intro x hx
    split at hx
    · rw [List.mem_singleton.mp hx, overallUpd_ul_final]
    · simp at hx
  -- the tail after the upload live updates
  have chUFT : List.Chain' (· ≤ ·)
      ((if t.ulFinished then [overallUpd 60 100 100] else []) ++ [100]) := by
    cases t.ulFinished <;> simp [overallUpd_ul_final]
  have mUFT : ∀ y ∈ (if t.ulFinished then [overallUpd 60 100 100] else []) ++ [100],
      (100 : ℤ) ≤ y := by
    intro y hy
    rcases List.mem_append.mp hy with hy | hy
    · rw [mUF y hy]
    · rw [List.mem_singleton.mp hy]
  -- upload live updates glued to the tail
  have chUT : List.Chain' (· ≤ ·) (t.ulLive.map ulUpd ++
      ((if t.ulFinished then [overallUpd 60 100 100] else []) ++ [100])) :=
    chainLE_append _ _ 100 chU chUFT (fun x hx => (mU x hx).2) mUFT
  have mUT : ∀ y ∈ t.ulLive.map ulUpd ++
      ((if t.ulFinished then [overallUpd 60 100 100] else []) ++ [100]),
      (60 : ℤ) ≤ y := by
    intro y hy
    rcases List.mem_append.mp hy with hy | hy
    · exact (mU y hy).1
    · exact le_trans (by norm_num) (mUFT y hy)
  -- download final update glued on
  have chDFT : List.Chain' (· ≤ ·)
      ((if t.dlFinished then [overallUpd 10 60 100] else []) ++
        (t.ulLive.map ulUpd ++
          ((if t.ulFinished then [overallUpd 60 100 100] else []) ++ [100]))) := by
    refine chainLE_append _ _ 60 ?_ chUT (fun x hx => le_of_eq (mDF x hx)) mUT
    cases t.dlFinished <;> simp
  have mDFT : ∀ y ∈ (if t.dlFinished then [overallUpd 10 60 100] else []) ++
      (t.ulLive.map ulUpd ++
        ((if t.ulFinished then [overallUpd 60 100 100] else []) ++ [100])),
      (60 : ℤ) ≤ y := by
    intro y hy
    rcases List.mem_append.mp hy with hy | hy
    · rw [mDF y hy]
    · exact mUT y hy
  -- download live updates glued on
  have chDT : List.Chain' (· ≤ ·) (t.dlLive.map dlUpd ++
      ((if t.dlFinished then [overallUpd 10 60 100] else []) ++
        (t.ulLive.map ulUpd ++
          ((if t.ulFinished then [overallUpd 60 100 100] else []) ++ [100])))) :=
    chainLE_append _ _ 60 chD chDFT (fun x hx => (mD x hx).2)
      (fun y hy => mDFT y hy)
  have mDT : ∀ y ∈ t.dlLive.map dlUpd ++
      ((if t.dlFinished then [overallUpd 10 60 100] else []) ++
        (t.ulLive.map ulUpd ++
          ((if t.ulFinished then [overallUpd 60 100 100] else []) ++ [100]))),
      (10 : ℤ) ≤ y := by
    intro y hy
    rcases List.mem_append.mp hy with hy | hy
    · exact (mD y hy).1
    · exact le_trans (by norm_num) (mDFT y hy)
  -- ping updates glued on
  have chPT : List.Chain' (· ≤ ·) ((List.range t.pingProbes).map pingUpd ++
      (t.dlLive.map dlUpd ++
        ((if t.dlFinished then [overallUpd 10 60 100] else []) ++
          (t.ulLive.map ulUpd ++
            ((if t.ulFinished then [overallUpd 60 100 100] else []) ++ [100]))))) :=
    chainLE_append _ _ 10 chP chDT (fun x hx => (mP x hx).2) mDT
  have mPT : ∀ y ∈ (List.range t.pingProbes).map pingUpd ++
      (t.dlLive.map dlUpd ++
        ((if t.dlFinished then [overallUpd 10 60 100] else []) ++
          (t.ulLive.map ulUpd ++
            ((if t.ulFinished then [overallUpd 60 100 100] else []) ++ [100])))),
      (0 : ℤ) ≤ y := by
    intro y hy
    rcases List.mem_append.mp hy with hy | hy
    · exact (mP y hy).1
    · exact le_trans (by norm_num) (mDT y hy)
  have hassoc : progressSeq t =
      ([0] : List ℤ) ++
        ((List.range t.pingProbes).map pingUpd ++
          (t.dlLive.map dlUpd ++
            ((if t.dlFinished then [overallUpd 10 60 100] else []) ++
              (t.ulLive.map ulUpd ++
                ((if t.ulFinished then [overallUpd 60 100 100] else []) ++
                  [100]))))) := by
    simp [progressSeq, List.append_assoc]
  refine ⟨?_, ?_, ?_⟩
  · rw [hassoc]
    refine chainLE_append _ _ 0 (List.chain'_singleton 0) chPT ?_ mPT
    intro x hx
    rw [List.mem_singleton.mp hx]
  · rw [hassoc]
    simp only [List.getLast?_append, List.getLast?_singleton, Option.or_some]
  · have hfin : ∀ (c l : CState) (e : ExitKind),
        (finalizeRun c l e idv ts).progress = 100 := by
      intro c l e
      cases e with
      | success => rfl
      | abortCaught =>
          unfold finalizeRun
          split_ifs <;> rfl
      | errCaught =>
          unfold finalizeRun
          split_ifs <;> rfl
    exact hfin st0 _ _

/-- Witness for C4 at a concrete run trace (all 100 probes, two download live
updates, a finished download, one upload live update, a finished upload) and a
concrete cancelled run. -/
theorem progress_monotone_and_final_witness :
    List.Chain' (· ≤ ·)
        (progressSeq ⟨100, [300, 5000], true, [250, 9999], true⟩)
      ∧ (progressSeq ⟨100, [300, 5000], true, [250, 9999], true⟩).getLast? =
          some 100
      ∧ (startAllTests freshState none (PingOutcome.aborted 3) 0 "w").progress =
          100 := by
  refine progress_monotone_and_final ⟨100, [300, 5000], true, [250, 9999], true⟩
    freshState none (PingOutcome.aborted 3) 0 "w" ?_
  refine ⟨le_rfl, ?_, ?_, ?_, ?_⟩
  · norm_num [List.pairwise_cons]
  · intro e he
    simp only [List.mem_cons, List.not_mem_nil, or_false] at he
    rcases he with rfl | rfl <;> norm_num
  · norm_num [List.pairwise_cons]
  · intro e he
    simp only [List.mem_cons, List.not_mem_nil, or_false] at he
    rcases he with rfl | rfl <;> norm_num

end SpeedTest
